import Mathlib

/-!
Verification of the text-processing core of the lecture-voice-notes
repository (`utils/text_processing.py`, `models/quiz_generator.py`,
`models/flashcard_generator.py`).

Python strings are modelled as `List Char` (ASCII semantics for the
character classes used by the code).  Each `re.sub` call of the source is
embedded as a dedicated left-to-right, non-overlapping scanner that mirrors
the concrete regular expression (all patterns involved match at least one
character, and are either backtracking-free or have their single bounded
backtracking point implemented explicitly).
-/

namespace LectureNotes

/-- Python strings are lists of characters. -/
abbrev PyStr := List Char

/-- Coerce a Lean string literal to the `PyStr` model. -/
def s2l (s : String) : PyStr := s.data

/-- Python `\s` / `str.strip()` whitespace class (ASCII part). -/
def isPySpace (c : Char) : Bool :=
  c = ' ' || c = '\t' || c = '\n' || c = '\r' || c = '\x0b' || c = '\x0c'

/-- Python `str.lstrip()`. -/
def pyStripL (s : PyStr) : PyStr := s.dropWhile isPySpace

/-- Python `str.rstrip()`. -/
def pyStripR (s : PyStr) : PyStr := (s.reverse.dropWhile isPySpace).reverse

/-- Python `str.strip()`. -/
def pyStrip (s : PyStr) : PyStr := pyStripR (pyStripL s)

/-- The ASCII case table: uppercase letters paired with their lowercase
forms. -/
def caseTable : List (Char × Char) :=
  [('A', 'a'), ('B', 'b'), ('C', 'c'), ('D', 'd'), ('E', 'e'), ('F', 'f'),
   ('G', 'g'), ('H', 'h'), ('I', 'i'), ('J', 'j'), ('K', 'k'), ('L', 'l'),
   ('M', 'm'), ('N', 'n'), ('O', 'o'), ('P', 'p'), ('Q', 'q'), ('R', 'r'),
   ('S', 's'), ('T', 't'), ('U', 'u'), ('V', 'v'), ('W', 'w'), ('X', 'x'),
   ('Y', 'y'), ('Z', 'z')]

/-- ASCII lower-casing of one character (model of Python `str.lower`). -/
def lowerChar (c : Char) : Char :=
  ((caseTable.find? (fun p => p.1 = c)).map Prod.snd).getD c

/-- ASCII upper-casing of one character (model of Python `str.upper`). -/
def upperChar (c : Char) : Char :=
  ((caseTable.find? (fun p => p.2 = c)).map Prod.fst).getD c

/-- Python regex `\w` (ASCII part): letters, digits, underscore. -/
def isWordChar (c : Char) : Bool := c.isAlphanum || c = '_'

/-- `hasPfx pat s` : `pat` is a prefix of `s`. -/
def hasPfx : PyStr → PyStr → Bool
  | [], _ => true
  | _ :: _, [] => false
  | a :: as, b :: bs => a = b && hasPfx as bs

/-- Case-insensitive prefix test (both sides lowered, as `re.IGNORECASE`). -/
def hasPfxCI (pat s : PyStr) : Bool := hasPfx (pat.map lowerChar) (s.map lowerChar)

/-- Python `needle in haystack` (substring containment). -/
def isSubstrOf (pat : PyStr) : PyStr → Bool
  | [] => hasPfx pat []
  | s@(_ :: rest) => hasPfx pat s || isSubstrOf pat rest

/--
Generic model of `re.sub` scanning: at each position of the string the
matcher `f` receives the scanner state and the current suffix; on a match it
yields the replacement text, the remaining suffix after the match, and the
state to resume with.  On no match one character is emitted and the state is
stepped.  All matchers used below consume at least one character on success,
so fuel `s.length + 1` makes the scan total and faithful.
-/
def reScan {σ : Type} (f : σ → PyStr → Option (PyStr × PyStr × σ))
    (step : σ → Char → σ) : Nat → σ → PyStr → PyStr
  | 0, _, s => s
  | _ + 1, _, [] => []
  | fuel + 1, st, c :: cs =>
    match f st (c :: cs) with
    | some (rep, rest, st') => rep ++ reScan f step fuel st' rest
    | none => c :: reScan f step fuel (step st c) cs

/-- Stateless `re.sub` pass. -/
def subPass (f : PyStr → Option (PyStr × PyStr)) (s : PyStr) : PyStr :=
  reScan (σ := Unit) (fun _ t => (f t).map fun pr => (pr.1, pr.2, ()))
    (fun _ _ => ()) (s.length + 1) () s

/--
`re.sub` pass with `re.MULTILINE` start-of-line anchor `^`: matches are only
attempted at the start of the string or right after a newline.  All anchored
patterns used here end in `:`; after a match the resume position is never a
line start.
-/
def lineStartPass (f : PyStr → Option (PyStr × PyStr)) (s : PyStr) : PyStr :=
  reScan (σ := Bool)
    (fun atStart t => if atStart then (f t).map fun pr => (pr.1, pr.2, false) else none)
    (fun _ c => c = '\n') (s.length + 1) true s

/--
`re.sub` pass giving the matcher the previous character of the scanned
string (for word-boundary `\b` tests); the matcher returns the character the
resume position should treat as previous (the last consumed one).
-/
def prevCharPass (f : Option Char → PyStr → Option (PyStr × PyStr × Option Char))
    (s : PyStr) : PyStr :=
  reScan (σ := Option Char) f (fun _ c => some c) (s.length + 1) none s

/-- `re.sub(r'\s+', ' ', s)`. -/
def collapseWS (s : PyStr) : PyStr :=
  subPass (fun t =>
    let pre := t.takeWhile isPySpace
    if pre = [] then none else some ([' '], t.dropWhile isPySpace)) s

/-- The sentence-punctuation class `[,.!?;:]` used throughout the cleaner. -/
def isClassPunct (c : Char) : Bool :=
  c = ',' || c = '.' || c = '!' || c = '?' || c = ';' || c = ':'

/-- Greedy `\d{1,2}` followed by `:` (with its one backtracking point). -/
def matchHourColon : PyStr → Option PyStr
  | d1 :: rest =>
    if !d1.isDigit then none
    else
      match rest with
      | d2 :: rest2 =>
        if d2.isDigit then
          match rest2 with
          | ':' :: r => some r
          | _ => none
        else if d2 = ':' then some rest2
        else none
      | [] => none
  | [] => none

/-- Exactly two digits. -/
def matchTwoDigits : PyStr → Option PyStr
  | a :: b :: r => if a.isDigit && b.isDigit then some r else none
  | _ => none

/-- Matcher for `\[\d{1,2}:\d{2}:\d{2}\]` (resp. the `(...)` variant). -/
def tsMatcher (opn cls : Char) (s : PyStr) : Option (PyStr × PyStr) :=
  match s with
  | c :: rest =>
    if c = opn then
      match matchHourColon rest with
      | some r1 =>
        match matchTwoDigits r1 with
        | some (':' :: r2) =>
          match matchTwoDigits r2 with
          | some (c2 :: r3) => if c2 = cls then some ([], r3) else none
          | _ => none
        | _ => none
      | none => none
    else none
  | [] => none

/-- Matcher for `(Speaker|Student|Professor|Lecturer)\s*\d*\s*:` (no flags,
case sensitive, applied at line starts only by `lineStartPass`). -/
def speakerMatcher (s : PyStr) : Option (PyStr × PyStr) :=
  let kws := [s2l "Speaker", s2l "Student", s2l "Professor", s2l "Lecturer"]
  let rec tryKw : List PyStr → Option (PyStr × PyStr)
    | [] => none
    | kw :: rest =>
      if hasPfx kw s then
        let r1 := (s.drop kw.length).dropWhile isPySpace
        let r2 := r1.dropWhile Char.isDigit
        let r3 := r2.dropWhile isPySpace
        match r3 with
        | ':' :: r4 => some ([], r4)
        | _ => tryKw rest
      else tryKw rest
  tryKw kws

/-- Matcher for `(SPEAKER_\d+|UNKNOWN_\d+)\s*:` at line starts. -/
def machineLabelMatcher (s : PyStr) : Option (PyStr × PyStr) :=
  let tryKw (kw : PyStr) : Option (PyStr × PyStr) :=
    if hasPfx kw s then
      let r1 := s.drop kw.length
      let ds := r1.takeWhile Char.isDigit
      if ds = [] then none
      else
        match (r1.dropWhile Char.isDigit).dropWhile isPySpace with
        | ':' :: r4 => some ([], r4)
        | _ => none
    else none
  match tryKw (s2l "SPEAKER_") with
  | some r => some r
  | none => tryKw (s2l "UNKNOWN_")

/-- Case-insensitive literal replacement (for the bracketed disfluency tags). -/
def ciLiteralMatcher (pat rep : PyStr) (s : PyStr) : Option (PyStr × PyStr) :=
  if hasPfxCI pat s then some (rep, s.drop pat.length) else none

/-- Matcher for `\s+([,.!?;:])` → `\1`. -/
def wsBeforePunctMatcher (s : PyStr) : Option (PyStr × PyStr) :=
  let pre := s.takeWhile isPySpace
  if pre = [] then none
  else
    match s.dropWhile isPySpace with
    | p :: rest => if isClassPunct p then some ([p], rest) else none
    | [] => none

/-- Matcher for `([,.!?;:])\s*([,.!?;:])` → `\1 \2`. -/
def punctSpacePunctMatcher (s : PyStr) : Option (PyStr × PyStr) :=
  match s with
  | p1 :: rest =>
    if isClassPunct p1 then
      match rest.dropWhile isPySpace with
      | p2 :: rest2 => if isClassPunct p2 then some ([p1, ' ', p2], rest2) else none
      | [] => none
    else none
  | [] => none

/-- `_fix_transcription_artifacts` (text_processing.py lines 85-107). -/
def fixTranscriptionArtifacts (t0 : PyStr) : PyStr :=
  let t1 := subPass (tsMatcher '[' ']') t0
  let t2 := subPass (tsMatcher '(' ')') t1
  let t3 := lineStartPass speakerMatcher t2
  let t4 := lineStartPass machineLabelMatcher t3
  let t5 := subPass (ciLiteralMatcher (s2l "[inaudible]") (s2l "[unclear]")) t4
  let t6 := subPass (ciLiteralMatcher (s2l "[unclear]") []) t5
  let t7 := subPass (ciLiteralMatcher (s2l "[crosstalk]") []) t6
  let t8 := subPass (ciLiteralMatcher (s2l "[music]") []) t7
  let t9 := subPass (ciLiteralMatcher (s2l "[applause]") []) t8
  let t10 := subPass wsBeforePunctMatcher t9
  subPass punctSpacePunctMatcher t10

/-- Python `str.split(sep)` for a single-character separator. -/
def splitOnChar (sep : Char) : PyStr → List PyStr
  | [] => [[]]
  | c :: cs =>
    if c = sep then [] :: splitOnChar sep cs
    else
      match splitOnChar sep cs with
      | p :: ps => (c :: p) :: ps
      | [] => [[c]]

/-- Capitalise the first character (the source treats length-1 fragments by
upper-casing the whole fragment, which coincides with this). -/
def capHead : PyStr → PyStr
  | [] => []
  | c :: cs => upperChar c :: cs

/-- Matcher for `([.!?])\s+` → `\1 `. -/
def sentencePunctSpaceMatcher (s : PyStr) : Option (PyStr × PyStr) :=
  match s with
  | p :: rest =>
    if p = '.' || p = '!' || p = '?' then
      let pre := rest.takeWhile isPySpace
      if pre = [] then none else some ([p, ' '], rest.dropWhile isPySpace)
    else none
  | [] => none

/-- Matcher for `([.!?])\s+([a-z])` with upper-casing replacement. -/
def capAfterPunctMatcher (s : PyStr) : Option (PyStr × PyStr) :=
  match s with
  | p :: rest =>
    if p = '.' || p = '!' || p = '?' then
      let pre := rest.takeWhile isPySpace
      if pre = [] then none
      else
        match rest.dropWhile isPySpace with
        | c :: rest2 =>
          if 'a' ≤ c && c ≤ 'z' then some ([p, ' ', upperChar c], rest2) else none
        | [] => none
    else none
  | [] => none

/-- `_improve_sentence_structure` (text_processing.py lines 109-135). -/
def improveSentenceStructure (t0 : PyStr) : PyStr :=
  let improved := (splitOnChar '.' t0).filterMap fun s =>
    let s' := pyStrip s
    if s' = [] then none else some (capHead s')
  let t1 := List.intercalate (s2l ". ") improved
  let t2 := subPass sentencePunctSpaceMatcher t1
  subPass capAfterPunctMatcher t2

/-- Matcher for `[,.!?;:]{2,}` → `.`. -/
def excessPunctMatcher (s : PyStr) : Option (PyStr × PyStr) :=
  let run := s.takeWhile isClassPunct
  if run.length ≥ 2 then some (['.'], s.dropWhile isClassPunct) else none

/-- Matcher for `([,.!?;:])([A-Za-z])` → `\1 \2`. -/
def punctLetterMatcher (s : PyStr) : Option (PyStr × PyStr) :=
  match s with
  | p :: c :: rest =>
    if isClassPunct p && (('A' ≤ c && c ≤ 'Z') || ('a' ≤ c && c ≤ 'z')) then
      some ([p, ' ', c], rest)
    else none
  | _ => none

/-- Matcher for `\.\s*([,.!?;:])` → `. ` (the trailing punctuation mark is
dropped by the replacement). -/
def periodPunctMatcher (s : PyStr) : Option (PyStr × PyStr) :=
  match s with
  | '.' :: rest =>
    match rest.dropWhile isPySpace with
    | p :: rest2 => if isClassPunct p then some (['.', ' '], rest2) else none
    | [] => none
  | _ => none

/-- Matcher for the quote-normalisation patterns `"\s*([^"]*?)\s*"` (and the
single-quote variant): the span up to the next quote character has its
whitespace stripped at both ends. -/
def quoteFixMatcher (q : Char) (s : PyStr) : Option (PyStr × PyStr) :=
  match s with
  | c :: rest =>
    if c = q then
      match rest.findIdx? (· = q) with
      | some i => some ([q] ++ pyStrip (rest.take i) ++ [q], rest.drop (i + 1))
      | none => none
    else none
  | [] => none

/-- `_clean_punctuation` (text_processing.py lines 137-153). -/
def cleanPunctuation (t0 : PyStr) : PyStr :=
  let t1 := subPass excessPunctMatcher t0
  let t2 := subPass punctLetterMatcher t1
  let t3 := subPass periodPunctMatcher t2
  let t4 := subPass (quoteFixMatcher '"') t3
  subPass (quoteFixMatcher '\x27') t4

/-- The four filler-word alternation lists of `_remove_filler_words`
(`let\x27s see` is built from characters to spell the apostrophe). -/
def fillerPat1 : List PyStr :=
  [s2l "um", s2l "uh", s2l "er", s2l "ah", s2l "like", s2l "you know",
   s2l "so", s2l "well", s2l "actually", s2l "basically", s2l "literally"]

def fillerPat2 : List PyStr := [s2l "kind of", s2l "sort of", s2l "type of"]

def fillerPat3 : List PyStr :=
  [s2l "I mean", s2l "you see", s2l "let me see",
   ['l', 'e', 't', '\x27', 's', ' ', 's', 'e', 'e']]

def fillerPat4 : List PyStr := [s2l "right?", s2l "okay?", s2l "alright?"]

/-- `\b` at the juncture between a previous character and a next character
(out-of-string counts as non-word). -/
def isBoundary (prev next : Option Char) : Bool :=
  (prev.elim false isWordChar) != (next.elim false isWordChar)

/-- Try the alternatives of one `\b(alt1|alt2|...)\b` filler pattern
(case-insensitive) at the current position. -/
def fillerMatcher (alts : List PyStr) (prev : Option Char) (s : PyStr) :
    Option (PyStr × PyStr × Option Char) :=
  let rec tryAlts : List PyStr → Option (PyStr × PyStr × Option Char)
    | [] => none
    | w :: rest =>
      if hasPfxCI w s && isBoundary prev (s.head?) &&
          isBoundary (w.getLast?) ((s.drop w.length).head?) then
        some ([], s.drop w.length, w.getLast?)
      else tryAlts rest
  tryAlts alts

/-- `_remove_filler_words` (text_processing.py lines 155-171). -/
def removeFillerWords (t0 : PyStr) : PyStr :=
  let t1 := prevCharPass (fillerMatcher fillerPat1) t0
  let t2 := prevCharPass (fillerMatcher fillerPat2) t1
  let t3 := prevCharPass (fillerMatcher fillerPat3) t2
  let t4 := prevCharPass (fillerMatcher fillerPat4) t3
  collapseWS t4

/-- `clean_transcript` (text_processing.py lines 53-83): the transcript
normaliser. -/
def cleanTranscript (text : PyStr) : PyStr :=
  if text = [] || pyStrip text = [] then []
  else
    pyStrip (removeFillerWords (cleanPunctuation (improveSentenceStructure
      (fixTranscriptionArtifacts (collapseWS text)))))

/-- Sentence-terminating punctuation `[.!?]` of the splitting regex. -/
def isSentPunct (c : Char) : Bool := c = '.' || c = '!' || c = '?'

/-- `re.split(r'[.!?]+\s+', text)`: a split point is a maximal nonempty run
of `[.!?]` followed by a nonempty run of whitespace.  Fuel-based scan; fuel
`length + 1` suffices since every step consumes at least one character. -/
def sentSplitAux : Nat → PyStr → List PyStr
  | 0, s => [s]
  | _ + 1, [] => [[]]
  | fuel + 1, c :: cs =>
    let t := c :: cs
    let run := t.takeWhile isSentPunct
    let afterRun := t.dropWhile isSentPunct
    let ws := afterRun.takeWhile isPySpace
    if run ≠ [] && ws ≠ [] then
      [] :: sentSplitAux fuel (afterRun.dropWhile isPySpace)
    else
      match sentSplitAux fuel cs with
      | p :: ps => (c :: p) :: ps
      | [] => [[c]]

def sentSplitRaw (s : PyStr) : List PyStr := sentSplitAux (s.length + 1) s

/-- `split_into_sentences` (text_processing.py lines 173-198), fallback
branch: the primary branch calls the external NLTK `sent_tokenize` model
(outside this repository); the in-repo fallback splits with
`re.split(r'[.!?]+\s+', text)`.  Fragments are stripped and those of length
`≤ 10` are discarded. -/
def splitIntoSentences (text : PyStr) : List PyStr :=
  ((sentSplitRaw text).map pyStrip).filter (fun s => s.length > 10)

/-- Python `str.split()` with no separator: split on whitespace runs,
discarding empty pieces. -/
def pySplitWSAux : Nat → PyStr → List PyStr
  | 0, _ => []
  | fuel + 1, s =>
    match s.dropWhile isPySpace with
    | [] => []
    | s1@(_ :: _) =>
      s1.takeWhile (fun c => !isPySpace c) ::
        pySplitWSAux fuel (s1.dropWhile (fun c => !isPySpace c))

def pySplitWS (s : PyStr) : List PyStr := pySplitWSAux (s.length + 1) s

/-- Python `string.punctuation` (32 ASCII characters). -/
def pythonPunct : PyStr :=
  ['!', '\x22', '#', '$', '%', '&', '\x27', '(', ')', '*', '+', ',', '-',
   '.', '/', ':', ';', '<', '=', '>', '?', '@', '[', '\\', ']', '^', '_',
   '\x60', '\x7b', '|', '\x7d', '~']

/-- The fallback stop-word set of `TextProcessor._get_stop_words`
(text_processing.py lines 40-51); the primary NLTK corpus is external to the
repository. -/
def stopWords : List PyStr :=
  [s2l "i", s2l "me", s2l "my", s2l "myself", s2l "we", s2l "our",
   s2l "ours", s2l "ourselves", s2l "you", s2l "your", s2l "yours",
   s2l "yourself", s2l "yourselves", s2l "he", s2l "him", s2l "his",
   s2l "himself", s2l "she", s2l "her", s2l "hers", s2l "herself",
   s2l "it", s2l "its", s2l "itself", s2l "they", s2l "them", s2l "their",
   s2l "theirs", s2l "themselves", s2l "what", s2l "which", s2l "who",
   s2l "whom", s2l "this", s2l "that", s2l "these", s2l "those", s2l "am",
   s2l "is", s2l "are", s2l "was", s2l "were", s2l "be", s2l "been",
   s2l "being", s2l "have", s2l "has", s2l "had", s2l "having", s2l "do",
   s2l "does", s2l "did", s2l "doing", s2l "a", s2l "an", s2l "the",
   s2l "and", s2l "but", s2l "if", s2l "or", s2l "because", s2l "as",
   s2l "until", s2l "while", s2l "of", s2l "at", s2l "by", s2l "for",
   s2l "with", s2l "through", s2l "during", s2l "before", s2l "after",
   s2l "above", s2l "below", s2l "up", s2l "down", s2l "in", s2l "out",
   s2l "on", s2l "off", s2l "over", s2l "under", s2l "again",
   s2l "further", s2l "then", s2l "once"]

/-- Python `str.isalpha()` (ASCII model): nonempty and all letters. -/
def pyIsAlpha (w : PyStr) : Bool := !w.isEmpty && w.all Char.isAlpha

/-- The whitespace tokens of the lower-cased, punctuation-stripped text
(`text.lower().translate(...punctuation...)` then `.split()`). -/
def allTokens (text : PyStr) : List PyStr :=
  pySplitWS ((text.map lowerChar).filter (fun c => !pythonPunct.contains c))

/-- The keyword filter of `extract_keywords`: length `> 3`, not a stop
word, alphabetic. -/
def keepKeyword (w : PyStr) : Bool :=
  w.length > 3 && !stopWords.contains w && pyIsAlpha w

/-- The filtered keyword token list of `extract_keywords`. -/
def keywordTokens (text : PyStr) : List PyStr :=
  (allTokens text).filter keepKeyword

/-- One step of the Python frequency-dict loop
`word_freq[word] = word_freq.get(word, 0) + 1`: a present key is updated in
place (dict order unchanged), an absent key is appended. -/
def bump {K : Type} [DecidableEq K] (acc : List (K × Nat)) (w : K) :
    List (K × Nat) :=
  if acc.any (fun p => p.1 = w) then
    acc.map (fun p => if p.1 = w then (p.1, p.2 + 1) else p)
  else acc ++ [(w, 1)]

/-- The insertion-ordered frequency dictionary built by the counting loops
of `extract_keywords` and `extract_topics`. -/
def pyCountDict {K : Type} [DecidableEq K] (l : List K) : List (K × Nat) :=
  l.foldl bump []

/-- Stable insertion of one item into a list sorted by weakly decreasing
count: the item goes before the first entry whose count is not larger, so
among equal counts earlier dict entries stay first — the behaviour of
Python `sorted(..., key=lambda x: x[1], reverse=True)` (a stable sort). -/
def insertD {K : Type} (x : K × Nat) : List (K × Nat) → List (K × Nat)
  | [] => [x]
  | y :: ys => if y.2 > x.2 then y :: insertD x ys else x :: y :: ys

/-- Stable sort by weakly decreasing count (model of Python `sorted` with
`key=lambda x: x[1], reverse=True`). -/
def sortD {K : Type} : List (K × Nat) → List (K × Nat)
  | [] => []
  | x :: xs => insertD x (sortD xs)

/-- `extract_keywords` (text_processing.py lines 200-234). -/
def extractKeywords (text : PyStr) (numKeywords : Nat) : List PyStr :=
  ((sortD (pyCountDict (keywordTokens text))).take numKeywords).map Prod.fst

/-- Floor of a rational (via flooring integer division, kernel
computable). -/
def ratFloor (x : ℚ) : ℤ := Int.fdiv x.num (x.den : ℤ)

/-- Model of CPython float `round(x, 1)` on exact rationals: scale by 10
and round half to even. -/
def roundHalfEven (x : ℚ) : ℤ :=
  let f := ratFloor x
  let r := x - (f : ℚ)
  if r < 1 / 2 then f
  else if r > 1 / 2 then f + 1
  else if f % 2 = 0 then f else f + 1

def pyRound1 (x : ℚ) : ℚ := (roundHalfEven (10 * x) : ℚ) / 10

/-- The statistics record of `create_text_summary_stats`. -/
structure StatsRecord where
  word_count : Nat
  sentence_count : Nat
  paragraph_count : Nat
  character_count : Nat
  character_count_no_spaces : Nat
  avg_words_per_sentence : ℚ
  avg_chars_per_word : ℚ
  estimated_reading_time_minutes : ℚ
  estimated_speaking_time_minutes : ℚ
deriving DecidableEq, Repr

/-- Python `str.split(sep)` for a multi-character separator (used for the
paragraph split on `"\n\n"`); fuel-based non-overlapping scan. -/
def splitOnSubAux (sep : PyStr) : Nat → PyStr → List PyStr
  | 0, s => [s]
  | _ + 1, [] => [[]]
  | fuel + 1, s@(c :: cs) =>
    if hasPfx sep s then [] :: splitOnSubAux sep fuel (s.drop sep.length)
    else
      match splitOnSubAux sep fuel cs with
      | p :: ps => (c :: p) :: ps
      | [] => [[c]]

def splitOnSub (sep s : PyStr) : List PyStr := splitOnSubAux sep (s.length + 1) s

/-- `create_text_summary_stats` (text_processing.py lines 236-267).  The
Python function returns the empty dict `{}` for empty input, modelled as
`none`; a populated record is `some`. -/
def createTextSummaryStats (text : PyStr) : Option StatsRecord :=
  if text = [] then none
  else
    let words := pySplitWS text
    let sentences := splitIntoSentences text
    let paragraphs := ((splitOnSub (s2l "\n\n") text).map pyStrip).filter (· ≠ [])
    let avgWps : ℚ :=
      if sentences ≠ [] then (words.length : ℚ) / (sentences.length : ℚ) else 0
    let avgCpw : ℚ :=
      if words ≠ [] then
        ((words.map List.length).sum : ℚ) / (words.length : ℚ)
      else 0
    some
      { word_count := words.length
        sentence_count := sentences.length
        paragraph_count := paragraphs.length
        character_count := text.length
        character_count_no_spaces := (text.filter (· ≠ ' ')).length
        avg_words_per_sentence := pyRound1 avgWps
        avg_chars_per_word := pyRound1 avgCpw
        estimated_reading_time_minutes := pyRound1 ((words.length : ℚ) / 200)
        estimated_speaking_time_minutes := pyRound1 ((words.length : ℚ) / 150) }

/-- The two-word phrase candidates of `extract_topics` (text_processing.py
lines 310-327): from each sentence containing at least two of the top-20
keywords as substrings, every adjacent word pair whose lower-cased join
contains some keyword. -/
def topicCandidates (text : PyStr) : List PyStr :=
  let keywords := extractKeywords text 20
  (splitIntoSentences text).flatMap fun sentence =>
    let sentenceLower := sentence.map lowerChar
    let keywordCount := (keywords.filter (fun kw => isSubstrOf kw sentenceLower)).length
    if keywordCount ≥ 2 then
      let ws := pySplitWS sentence
      (ws.zip ws.tail).filterMap fun pr =>
        let phrase := (pr.1 ++ [' '] ++ pr.2).map lowerChar
        if keywords.any (fun kw => isSubstrOf kw phrase) then some phrase else none
    else []

/-- `extract_topics` (text_processing.py lines 299-336): tally the
candidates, sort by decreasing frequency (stable), truncate to
`num_topics`, and keep only phrases of frequency `> 1`. -/
def extractTopics (text : PyStr) (numTopics : Nat) : List PyStr :=
  (((sortD (pyCountDict (topicCandidates text))).take numTopics).filter
      (fun p => p.2 > 1)).map Prod.fst

/-! ### The structured-response parsers of quiz_generator.py and
flashcard_generator.py

Python values produced by `json.loads` are modelled by `Json`; integers and
floats are conflated into one exact-rational constructor (the special
floats `NaN`/`Infinity`, which CPython's `json.loads` accepts, get their own
constructors).  A raising Python call is modelled as `Except PyErr`; the
only exception `json.loads` raises on string input is `JSONDecodeError`,
and the `except json.JSONDecodeError` clauses catch exactly that
constructor. -/

inductive PyErr where
  | jsonDecode : PyErr
  | other : PyErr
deriving DecidableEq

inductive Json where
  | null : Json
  | bool : Bool → Json
  | num : ℚ → Json
  | nan : Json
  | inf : Bool → Json
  | str : PyStr → Json
  | arr : List Json → Json
  | obj : List (PyStr × Json) → Json

/-- JSON insignificant whitespace. -/
def jSkipWs (s : PyStr) : PyStr :=
  s.dropWhile (fun c => c = ' ' || c = '\t' || c = '\n' || c = '\r')

def hexVal (c : Char) : Option Nat :=
  if '0' ≤ c && c ≤ '9' then some (c.toNat - 48)
  else if 'a' ≤ c && c ≤ 'f' then some (c.toNat - 87)
  else if 'A' ≤ c && c ≤ 'F' then some (c.toNat - 70)
  else none

/-- Body of a JSON string after the opening quote: strict mode (unescaped
control characters rejected), with the standard escapes. -/
def parseJStr : Nat → PyStr → Option (PyStr × PyStr)
  | 0, _ => none
  | _ + 1, [] => none
  | fuel + 1, c :: cs =>
    if c = '"' then some ([], cs)
    else if c = '\\' then
      match cs with
      | '"' :: r => (parseJStr fuel r).map fun pr => ('"' :: pr.1, pr.2)
      | '\\' :: r => (parseJStr fuel r).map fun pr => ('\\' :: pr.1, pr.2)
      | '/' :: r => (parseJStr fuel r).map fun pr => ('/' :: pr.1, pr.2)
      | 'b' :: r => (parseJStr fuel r).map fun pr => ('\x08' :: pr.1, pr.2)
      | 'f' :: r => (parseJStr fuel r).map fun pr => ('\x0c' :: pr.1, pr.2)
      | 'n' :: r => (parseJStr fuel r).map fun pr => ('\n' :: pr.1, pr.2)
      | 'r' :: r => (parseJStr fuel r).map fun pr => ('\r' :: pr.1, pr.2)
      | 't' :: r => (parseJStr fuel r).map fun pr => ('\t' :: pr.1, pr.2)
      | 'u' :: h1 :: h2 :: h3 :: h4 :: r =>
        match hexVal h1, hexVal h2, hexVal h3, hexVal h4 with
        | some a, some b, some c3, some d =>
          (parseJStr fuel r).map fun pr =>
            (Char.ofNat (((a * 16 + b) * 16 + c3) * 16 + d) :: pr.1, pr.2)
        | _, _, _, _ => none
      | _ => none
    else if c.toNat < 32 then none
    else (parseJStr fuel cs).map fun pr => (c :: pr.1, pr.2)

def digitsToNat (ds : PyStr) : Nat :=
  ds.foldl (fun a c => a * 10 + (c.toNat - 48)) 0

/-- JSON number per CPython's `NUMBER_RE`:
`(-?(?:0|[1-9]\d*))(\.\d+)?([eE][-+]?\d+)?`.  A leading-zero integer part
consumes the single `0` only (the following digits are left unconsumed and
make the enclosing parse fail, as in CPython). -/
def parseJNum (s : PyStr) : Option (Json × PyStr) :=
  let (neg, s1) := match s with
    | '-' :: r => (true, r)
    | _ => (false, s)
  match s1 with
  | c :: _ =>
    if !c.isDigit then none
    else
      let intDs := if c = '0' then ['0'] else s1.takeWhile Char.isDigit
      let r1 := s1.drop intDs.length
      let (fracDs, r2) :=
        match r1 with
        | '.' :: r =>
          let ds := r.takeWhile Char.isDigit
          if ds = [] then ([], r1) else (ds, r.dropWhile Char.isDigit)
        | _ => ([], r1)
      let (expOk, expNeg, expDs, r3) :=
        match r2 with
        | e :: rest =>
          if e = 'e' || e = 'E' then
            let (en, rest2) := match rest with
              | '-' :: rr => (true, rr)
              | '+' :: rr => (false, rr)
              | _ => (false, rest)
            let ds := rest2.takeWhile Char.isDigit
            if ds = [] then (false, false, ([] : PyStr), r2)
            else (true, en, ds, rest2.dropWhile Char.isDigit)
          else (false, false, ([] : PyStr), r2)
        | [] => (false, false, ([] : PyStr), r2)
      let mant : ℚ := (digitsToNat intDs : ℚ) +
        (digitsToNat fracDs : ℚ) / ((10 : ℚ) ^ fracDs.length)
      let scaled : ℚ :=
        if expOk then
          if expNeg then mant / ((10 : ℚ) ^ digitsToNat expDs)
          else mant * ((10 : ℚ) ^ digitsToNat expDs)
        else mant
      some (Json.num (if neg then -scaled else scaled), r3)
  | [] => none

mutual

/-- One JSON value at the current position (no leading whitespace). -/
def parseJValue : Nat → PyStr → Option (Json × PyStr)
  | 0, _ => none
  | fuel + 1, s =>
    match s with
    | 'n' :: 'u' :: 'l' :: 'l' :: r => some (.null, r)
    | 't' :: 'r' :: 'u' :: 'e' :: r => some (.bool true, r)
    | 'f' :: 'a' :: 'l' :: 's' :: 'e' :: r => some (.bool false, r)
    | 'N' :: 'a' :: 'N' :: r => some (.nan, r)
    | 'I' :: 'n' :: 'f' :: 'i' :: 'n' :: 'i' :: 't' :: 'y' :: r =>
      some (.inf true, r)
    | '-' :: 'I' :: 'n' :: 'f' :: 'i' :: 'n' :: 'i' :: 't' :: 'y' :: r =>
      some (.inf false, r)
    | '"' :: r => (parseJStr (r.length + 1) r).map fun pr => (.str pr.1, pr.2)
    | '[' :: r =>
      match jSkipWs r with
      | ']' :: r2 => some (.arr [], r2)
      | r2 => (parseJItems fuel r2).map fun pr => (.arr pr.1, pr.2)
    | '\x7b' :: r =>
      match jSkipWs r with
      | '\x7d' :: r2 => some (.obj [], r2)
      | r2 => (parseJMembers fuel r2).map fun pr => (.obj pr.1, pr.2)
    | _ => parseJNum s

/-- Comma-separated array items, ending at `]`. -/
def parseJItems : Nat → PyStr → Option (List Json × PyStr)
  | 0, _ => none
  | fuel + 1, s =>
    match parseJValue fuel s with
    | none => none
    | some (v, rest) =>
      match jSkipWs rest with
      | ']' :: r2 => some ([v], r2)
      | ',' :: r2 =>
        (parseJItems fuel (jSkipWs r2)).map fun pr => (v :: pr.1, pr.2)
      | _ => none

/-- Comma-separated object members, ending at the closing brace. -/
def parseJMembers : Nat → PyStr → Option (List (PyStr × Json) × PyStr)
  | 0, _ => none
  | fuel + 1, s =>
    match s with
    | '"' :: r =>
      match parseJStr (r.length + 1) r with
      | none => none
      | some (key, r1) =>
        match jSkipWs r1 with
        | ':' :: r2 =>
          match parseJValue fuel (jSkipWs r2) with
          | none => none
          | some (v, r3) =>
            match jSkipWs r3 with
            | '\x7d' :: r4 => some ([(key, v)], r4)
            | ',' :: r4 =>
              (parseJMembers fuel (jSkipWs r4)).map fun pr =>
                ((key, v) :: pr.1, pr.2)
            | _ => none
        | _ => none
    | _ => none

end

/-- Python `json.loads`: one JSON document surrounded by optional
whitespace; anything else raises `JSONDecodeError`.  The fuel
`2 * length + 8` strictly dominates the recursion depth, which grows by at
most two per consumed character. -/
def jsonLoads (s : PyStr) : Except PyErr Json :=
  match parseJValue (2 * s.length + 8) (jSkipWs s) with
  | some (v, rest) => if jSkipWs rest = [] then .ok v else .error .jsonDecode
  | none => .error .jsonDecode

/-- `re.search(r'\[.*\]', s, re.DOTALL)`: with a greedy dot-all `.*` the
match, when one exists, runs from the first `[` of the string to the last
`]` (provided that `]` comes after that `[`). -/
def bracketSlice (s : PyStr) : Option PyStr :=
  match s.findIdx? (· = '['), (s.reverse.findIdx? (· = ']')).map
      (fun rj => s.length - 1 - rj) with
  | some i, some j => if i < j then some ((s.take (j + 1)).drop i) else none
  | _, _ => none

/-- The shared structured stage of `_parse_quiz_json` (quiz_generator.py
lines 262-279): strict-parse the bracket slice if present, otherwise the
whole text. -/
def quizTryJson (s : PyStr) : Except PyErr Json :=
  match bracketSlice s with
  | some sub => jsonLoads sub
  | none => jsonLoads s

/-- The identical structured stage of `_parse_flashcard_json`
(flashcard_generator.py lines 270-287). -/
def flashTryJson (s : PyStr) : Except PyErr Json :=
  match bracketSlice s with
  | some sub => jsonLoads sub
  | none => jsonLoads s

/-- `_fallback_question_parsing` (quiz_generator.py lines 281-297): one
record per nonempty stripped line containing `?` or ending in `.`, capped
at 5. -/
def quizFallback (s : PyStr) : List Json :=
  ((((splitOnChar '\n' s).map pyStrip).filter
      (fun l => !l.isEmpty && (l.contains '?' || l.getLast? = some '.'))).map
    (fun l => Json.obj
      [(s2l "question", .str l), (s2l "type", .str (s2l "text")),
       (s2l "note",
        .str (s2l "Question extracted from text (formatting may be incomplete)"))])).take 5

/-- Python `range(0, n-1, 2)` pairing of consecutive lines. -/
def pairUp {α : Type} : List α → List (α × α)
  | a :: b :: rest => (a, b) :: pairUp rest
  | _ => []

/-- Python `line.replace('**', '').replace('*', '')`. -/
def stripStars (l : PyStr) : PyStr :=
  subPass (fun t => if hasPfx (s2l "*") t then some ([], t.drop 1) else none)
    (subPass (fun t => if hasPfx (s2l "**") t then some ([], t.drop 2) else none) l)

/-- `_fallback_flashcard_parsing` (flashcard_generator.py lines 289-309):
pair up the nonempty stripped lines two at a time, strip markdown emphasis
markers, keep pairs with both sides nonempty, capped at 10. -/
def flashFallback (s : PyStr) : List Json :=
  let lines := ((splitOnChar '\n' s).map pyStrip).filter (· ≠ [])
  ((pairUp lines).filterMap fun pr =>
    let front := pyStrip (stripStars pr.1)
    let back := pyStrip (stripStars pr.2)
    if front ≠ [] && back ≠ [] then
      some (Json.obj
        [(s2l "front", .str front), (s2l "back", .str back),
         (s2l "type", .str (s2l "auto-generated")),
         (s2l "note", .str (s2l "Generated from text parsing (may need formatting)"))])
    else none).take 10

/-- `_parse_quiz_json`: the `except json.JSONDecodeError` clause catches
exactly the decode error and falls back; any other exception would
propagate. -/
def parseQuizJson (s : PyStr) : Except PyErr Json :=
  match quizTryJson s with
  | .ok v => .ok v
  | .error .jsonDecode => .ok (.arr (quizFallback s))
  | .error e => .error e

/-- `_parse_flashcard_json`, same shape with the flashcard fallback. -/
def parseFlashcardJson (s : PyStr) : Except PyErr Json :=
  match flashTryJson s with
  | .ok v => .ok v
  | .error .jsonDecode => .ok (.arr (flashFallback s))
  | .error e => .error e

/-- Observer: is the parsed value a sequence (a Python list)? -/
def jsonIsArr : Json → Bool
  | .arr _ => true
  | _ => false

/-- Observer: the number of records of an array result (`none` when the
call raised or the value is not an array). -/
def resultArrLen : Except PyErr Json → Option Nat
  | .ok (.arr l) => some l.length
  | _ => none

/-! ### Observers and proof-support definitions -/

/-- A string with no leading and no trailing whitespace. -/
def strippedB (l : PyStr) : Bool :=
  !(l.head?.elim false isPySpace) && !(l.getLast?.elim false isPySpace)

/-- Some two adjacent characters are both punctuation marks
(`string.punctuation`). -/
def hasAdjPunct : PyStr → Bool
  | a :: b :: rest =>
    (pythonPunct.contains a && pythonPunct.contains b) || hasAdjPunct (b :: rest)
  | _ => false

/-- Some substring matches the timestamp markup pattern
`\[\d{1,2}:\d{2}:\d{2}\]`. -/
def containsTimestamp : PyStr → Bool
  | [] => false
  | s@(_ :: rest) => (tsMatcher '[' ']' s).isSome || containsTimestamp rest

/-- Index of the first occurrence of an element (length if absent). -/
def idxOf {K : Type} [DecidableEq K] (a : K) : List K → Nat
  | [] => 0
  | b :: l => if b = a then 0 else idxOf a l + 1

/-- Number of occurrences of an element in a list. -/
def countOcc {K : Type} [DecidableEq K] (a : K) : List K → Nat
  | [] => 0
  | b :: l => countOcc a l + if b = a then 1 else 0

/-- First-occurrence-order deduplication: the key order of a Python dict
built by repeated insertion. -/
def dedupF {K : Type} [DecidableEq K] : List K → List K
  | [] => []
  | x :: xs => x :: dedupF (xs.filter (fun y => y ≠ x))
termination_by l => l.length
decreasing_by
  exact Nat.lt_succ_of_le (List.length_filter_le _ _)

/-- Does the association list hold the key? -/
def hasKeyB {K : Type} [DecidableEq K] (acc : List (K × Nat)) (u : K) : Bool :=
  acc.any (fun p => p.1 = u)

/-- Count lookup in an association list (0 when absent), the Python
`word_freq.get(word, 0)`. -/
def lkCnt {K : Type} [DecidableEq K] : List (K × Nat) → K → Nat
  | [], _ => 0
  | p :: ps, u => if p.1 = u then p.2 else lkCnt ps u

/-- Accumulating first-occurrence deduplication (the key trace of the
counting fold). -/
def dedupFold {K : Type} [DecidableEq K] (ks : List K) (toks : List K) : List K :=
  toks.foldl (fun ks w => if w ∈ ks then ks else ks ++ [w]) ks

/-- Order produced by a stable descending-count sort over a list whose base
order is `R`: strictly larger counts first, ties in base order. -/
def tieRel {K : Type} (R : K × Nat → K × Nat → Prop) (a b : K × Nat) : Prop :=
  b.2 < a.2 ∨ (a.2 = b.2 ∧ R a b)

/-- The all-zero statistics record the specification ascribes to empty
input. -/
def statsZero : StatsRecord :=
  { word_count := 0, sentence_count := 0, paragraph_count := 0,
    character_count := 0, character_count_no_spaces := 0,
    avg_words_per_sentence := 0, avg_chars_per_word := 0,
    estimated_reading_time_minutes := 0, estimated_speaking_time_minutes := 0 }

/-! ## Helper lemmas -/

theorem head?_dropWhile_false (p : Char → Bool) :
    ∀ (l : PyStr) (c : Char), (l.dropWhile p).head? = some c → p c = false := by
  intro l
  induction l with
  | nil => intro c h; simp [List.dropWhile] at h
  | cons a t ih =>
    intro c h
    by_cases hp : p a
    · rw [List.dropWhile_cons_of_pos hp] at h
      exact ih c h
    · rw [List.dropWhile_cons_of_neg hp] at h
      simp at h
      subst h
      simpa using hp

theorem getLast?_pyStripR_false (l : PyStr) (c : Char)
    (h : (pyStripR l).getLast? = some c) : isPySpace c = false := by
  unfold pyStripR at h
  rw [List.getLast?_reverse] at h
  exact head?_dropWhile_false _ _ _ h

theorem dropWhile_getLast?_eq (p : Char → Bool) :
    ∀ (l : PyStr) (c : Char), (l.dropWhile p).getLast? = some c →
      l.getLast? = some c := by
  intro l
  induction l with
  | nil => intro c h; simp [List.dropWhile] at h
  | cons a t ih =>
    intro c h
    by_cases hp : p a
    · rw [List.dropWhile_cons_of_pos hp] at h
      have ht := ih c h
      cases t with
      | nil => simp at ht
      | cons b t' => rw [List.getLast?_cons_cons]; exact ht
    · rwa [List.dropWhile_cons_of_neg hp] at h

theorem head?_pyStripR_eq (l : PyStr) (c : Char)
    (h : (pyStripR l).head? = some c) : l.head? = some c := by
  unfold pyStripR at h
  rw [List.head?_reverse] at h
  have := dropWhile_getLast?_eq isPySpace l.reverse c h
  rwa [List.getLast?_reverse] at this

theorem strippedB_pyStrip (l : PyStr) : strippedB (pyStrip l) = true := by
  unfold strippedB pyStrip
  apply Bool.and_eq_true_iff.mpr
  constructor
  · cases hh : (pyStripR (pyStripL l)).head? with
    | none => simp
    | some c =>
      have h1 := head?_pyStripR_eq _ _ hh
      have h2 := head?_dropWhile_false isPySpace l c h1
      simp [h2]
  · cases hh : (pyStripR (pyStripL l)).getLast? with
    | none => simp
    | some c =>
      have h2 := getLast?_pyStripR_false _ _ hh
      simp [h2]

section CountSort

variable {K : Type} [DecidableEq K]

theorem mem_dedupF : ∀ (l : List K) (a : K), a ∈ dedupF l ↔ a ∈ l := by
  intro l
  induction l using dedupF.induct with
  | case1 => intro a; simp [dedupF]
  | case2 x xs ih =>
    intro a
    rw [dedupF]
    simp only [List.mem_cons, ih, List.mem_filter]
    constructor
    · rintro (rfl | ⟨h, _⟩)
      · exact .inl rfl
      · exact .inr h
    · rintro (rfl | h)
      · exact .inl rfl
      · by_cases hax : a = x
        · exact .inl hax
        · exact .inr ⟨h, by simpa using hax⟩

theorem nodup_dedupF : ∀ (l : List K), (dedupF l).Nodup := by
  intro l
  induction l using dedupF.induct with
  | case1 => simp [dedupF]
  | case2 x xs ih =>
    rw [dedupF]
    refine List.Nodup.cons ?_ ih
    intro hx
    have := (mem_dedupF _ _).mp hx
    simp at this

theorem idxOf_filter_mono (p : K → Bool) :
    ∀ (l : List K) (a b : K), a ∈ l.filter p → b ∈ l.filter p →
      idxOf a (l.filter p) < idxOf b (l.filter p) → idxOf a l < idxOf b l := by
  intro l
  induction l with
  | nil => intro a b ha; simp at ha
  | cons h t ih =>
    intro a b ha hb hlt
    by_cases hp : p h
    · rw [List.filter_cons_of_pos hp] at ha hb hlt
      by_cases hha : h = a
      · subst hha
        by_cases hhb : h = b
        · subst hhb; simp [idxOf] at hlt
        · simp [idxOf, hhb]
      · by_cases hhb : h = b
        · subst hhb
          simp [idxOf, hha] at hlt
        · simp only [idxOf, if_neg hha, if_neg hhb] at hlt ⊢
          have ha' : a ∈ t.filter p := by
            rcases List.mem_cons.mp ha with rfl | h'
            · exact absurd rfl hha
            · exact h'
          have hb' : b ∈ t.filter p := by
            rcases List.mem_cons.mp hb with rfl | h'
            · exact absurd rfl hhb
            · exact h'
          have := ih a b ha' hb' (by omega)
          omega
    · rw [List.filter_cons_of_neg hp] at ha hb hlt
      have hpa : p a = true := (List.mem_filter.mp ha).2
      have hpb : p b = true := (List.mem_filter.mp hb).2
      have hha : h ≠ a := fun he => by rw [he] at hp; exact hp hpa
      have hhb : h ≠ b := fun he => by rw [he] at hp; exact hp hpb
      simp only [idxOf, if_neg hha, if_neg hhb]
      have := ih a b ha hb hlt
      omega

theorem dedupF_pairwise_idxOf :
    ∀ (l : List K), (dedupF l).Pairwise (fun a b => idxOf a l < idxOf b l) := by
  intro l
  induction l using dedupF.induct with
  | case1 => simp [dedupF]
  | case2 x xs ih =>
    rw [dedupF]
    refine List.Pairwise.cons ?_ ?_
    · intro b hb
      have hbf : b ∈ xs.filter (fun y => y ≠ x) := (mem_dedupF _ _).mp hb
      have hbne : b ≠ x := by
        have := (List.mem_filter.mp hbf).2; simpa using this
      have hxb : x ≠ b := fun he => hbne he.symm
      simp [idxOf, hxb]
    · refine ih.imp_of_mem ?_
      intro a b ha hb hlt
      have haf : a ∈ xs.filter (fun y => y ≠ x) := (mem_dedupF _ _).mp ha
      have hbf : b ∈ xs.filter (fun y => y ≠ x) := (mem_dedupF _ _).mp hb
      have hane : a ≠ x := by have := (List.mem_filter.mp haf).2; simpa using this
      have hbne : b ≠ x := by have := (List.mem_filter.mp hbf).2; simpa using this
      have hxa : x ≠ a := fun he => hane he.symm
      have hxb : x ≠ b := fun he => hbne he.symm
      have := idxOf_filter_mono _ xs a b haf hbf hlt
      simp only [idxOf, if_neg hxa, if_neg hxb]
      omega

theorem keysOf_bump (acc : List (K × Nat)) (w : K) :
    (bump acc w).map Prod.fst =
      if w ∈ acc.map Prod.fst then acc.map Prod.fst
      else acc.map Prod.fst ++ [w] := by
  unfold bump
  by_cases h : acc.any (fun p => p.1 = w)
  · rw [if_pos h]
    have hw : w ∈ acc.map Prod.fst := by
      rcases List.any_eq_true.mp h with ⟨p, hp, he⟩
      simp at he
      exact List.mem_map.mpr ⟨p, hp, he⟩
    rw [if_pos hw, List.map_map]
    apply List.map_congr_left
    intro p _
    by_cases hpw : p.1 = w <;> simp [hpw]
  · rw [if_neg h]
    have hw : w ∉ acc.map Prod.fst := by
      intro hmem
      rcases List.mem_map.mp hmem with ⟨p, hp, he⟩
      exact h (List.any_eq_true.mpr ⟨p, hp, by simp [he]⟩)
    rw [if_neg hw]
    simp

theorem lkCnt_map_update (w u : K) :
    ∀ (acc : List (K × Nat)),
      lkCnt (acc.map (fun p => if p.1 = w then (p.1, p.2 + 1) else p)) u =
        if u = w ∧ hasKeyB acc u then lkCnt acc u + 1 else lkCnt acc u := by
  intro acc
  induction acc with
  | nil => simp [lkCnt, hasKeyB]
  | cons p ps ih =>
    simp only [List.map_cons]
    by_cases hpw : p.1 = w
    · rw [if_pos hpw]
      by_cases hcu : p.1 = u
      · have huw : u = w := hcu ▸ hpw
        subst huw
        have hkey : hasKeyB (p :: ps) u = true := by simp [hasKeyB, hcu]
        simp [lkCnt, hcu, hkey]
      · have huw : ¬ u = w := fun he => hcu (by rw [hpw, he])
        simp [lkCnt, hcu, huw, ih]
    · rw [if_neg hpw]
      by_cases hcu : p.1 = u
      · have huw : ¬ u = w := fun he => hpw (by rw [hcu, he])
        simp [lkCnt, hcu, huw]
      · have hkey : hasKeyB (p :: ps) u = hasKeyB ps u := by simp [hasKeyB, hcu]
        simp [lkCnt, hcu, ih, hkey]

theorem lkCnt_append (u : K) :
    ∀ (acc l2 : List (K × Nat)),
      lkCnt (acc ++ l2) u = if hasKeyB acc u then lkCnt acc u else lkCnt l2 u := by
  intro acc l2
  induction acc with
  | nil => simp [lkCnt, hasKeyB]
  | cons p ps ih =>
    by_cases hcu : p.1 = u
    · simp [lkCnt, hcu, hasKeyB]
    · have hd : (decide (p.1 = u)) = false := by simp [hcu]
      simp only [List.cons_append, lkCnt, if_neg hcu, hasKeyB, List.any_cons,
        hd, Bool.false_or]
      exact ih

theorem lkCnt_eq_zero_of_not_hasKey (u : K) :
    ∀ (acc : List (K × Nat)), hasKeyB acc u = false → lkCnt acc u = 0 := by
  intro acc
  induction acc with
  | nil => intro _; simp [lkCnt]
  | cons p ps ih =>
    intro h
    have h1 : ¬ p.1 = u := by
      intro he
      rw [hasKeyB, List.any_cons] at h
      simp [he] at h
    have h2 : hasKeyB ps u = false := by
      rw [hasKeyB, List.any_cons] at h
      exact (Bool.or_eq_false_iff.mp h).2
    simp only [lkCnt, if_neg h1]
    exact ih h2

theorem lkCnt_bump (acc : List (K × Nat)) (w u : K) :
    lkCnt (bump acc w) u = if u = w then lkCnt acc u + 1 else lkCnt acc u := by
  unfold bump
  by_cases h : acc.any (fun p => p.1 = w)
  · rw [if_pos h]
    rw [lkCnt_map_update]
    by_cases huw : u = w
    · subst huw
      have hk : hasKeyB acc u = true := h
      simp [hk]
    · simp [huw]
  · rw [if_neg h]
    rw [lkCnt_append]
    have hkw : hasKeyB acc w = false := by
      unfold hasKeyB
      cases hb : acc.any (fun p => decide (p.1 = w)) with
      | false => rfl
      | true => exact absurd hb h
    by_cases huw : u = w
    · subst huw
      simp [hkw, lkCnt, lkCnt_eq_zero_of_not_hasKey u acc hkw]
    · by_cases hk : hasKeyB acc u
      · simp [hk, huw]
      · simp only [Bool.not_eq_true] at hk
        have hne : ¬ (w : K) = u := fun he => huw he.symm
        simp [hk, huw, lkCnt, hne, lkCnt_eq_zero_of_not_hasKey u acc hk]

theorem lkCnt_foldl (u : K) :
    ∀ (toks : List K) (acc : List (K × Nat)),
      lkCnt (toks.foldl bump acc) u = lkCnt acc u + toks.count u := by
  intro toks
  induction toks with
  | nil => intro acc; simp
  | cons w ws ih =>
    intro acc
    rw [List.foldl_cons, ih, lkCnt_bump, List.count_cons]
    by_cases huw : u = w
    · subst huw; simp; omega
    · have hwu : ¬ (w == u) = true := by simpa [beq_iff_eq] using fun he => huw he.symm
      simp [huw, hwu]

theorem keysOf_foldl_bump :
    ∀ (toks : List K) (acc : List (K × Nat)),
      (toks.foldl bump acc).map Prod.fst = dedupFold (acc.map Prod.fst) toks := by
  intro toks
  induction toks with
  | nil => intro acc; simp [dedupFold]
  | cons w ws ih =>
    intro acc
    rw [List.foldl_cons, ih, keysOf_bump]
    unfold dedupFold
    rw [List.foldl_cons]

theorem dedupFold_eq :
    ∀ (toks ks : List K),
      dedupFold ks toks = ks ++ dedupF (toks.filter (fun w => w ∉ ks)) := by
  intro toks
  induction toks with
  | nil => intro ks; simp [dedupFold, dedupF]
  | cons w ws ih =>
    intro ks
    have hstep : dedupFold ks (w :: ws) =
        dedupFold (if w ∈ ks then ks else ks ++ [w]) ws := by
      unfold dedupFold
      rw [List.foldl_cons]
    rw [hstep]
    by_cases hw : w ∈ ks
    · rw [if_pos hw, ih]
      have hfil : (w :: ws).filter (fun y => decide (y ∉ ks)) =
          ws.filter (fun y => decide (y ∉ ks)) := by
        rw [List.filter_cons_of_neg (by simpa using hw)]
      simp only [hfil]
    · rw [if_neg hw, ih]
      have hfil : (w :: ws).filter (fun y => decide (y ∉ ks)) =
          w :: ws.filter (fun y => decide (y ∉ ks)) := by
        rw [List.filter_cons_of_pos (by simpa using hw)]
      rw [hfil, dedupF]
      have hff : (ws.filter (fun y => decide (y ∉ ks))).filter
            (fun y => decide (y ≠ w)) =
          ws.filter (fun y => decide (y ∉ ks ++ [w])) := by
        rw [List.filter_filter]
        apply List.filter_congr
        intro a _
        by_cases haw : a = w
        · simp [haw]
        · by_cases haks : a ∈ ks <;> simp [haw, haks]
      rw [hff, List.append_assoc, List.singleton_append]

theorem keys_pyCountDict (toks : List K) :
    (pyCountDict toks).map Prod.fst = dedupF toks := by
  unfold pyCountDict
  rw [keysOf_foldl_bump, List.map_nil, dedupFold_eq]
  have : toks.filter (fun w => decide (w ∉ ([] : List K))) = toks := by
    apply List.filter_eq_self.mpr
    intro a _
    simp
  rw [this, List.nil_append]

theorem entry_snd_eq_lkCnt :
    ∀ (acc : List (K × Nat)), (acc.map Prod.fst).Nodup →
      ∀ p ∈ acc, p.2 = lkCnt acc p.1 := by
  intro acc
  induction acc with
  | nil => intro _ p hp; simp at hp
  | cons q rest ih =>
    intro hnd p hp
    rcases List.mem_cons.mp hp with rfl | hp'
    · simp [lkCnt]
    · have hq : ¬ q.1 = p.1 := by
        intro he
        rw [List.map_cons] at hnd
        have : p.1 ∈ rest.map Prod.fst := List.mem_map.mpr ⟨p, hp', rfl⟩
        exact (List.nodup_cons.mp hnd).1 (he ▸ this)
      simp only [lkCnt, if_neg hq]
      exact ih (by
        rw [List.map_cons] at hnd
        exact (List.nodup_cons.mp hnd).2) p hp'

theorem pyCountDict_eq (toks : List K) :
    pyCountDict toks = (dedupF toks).map (fun w => (w, toks.count w)) := by
  have hkeys := keys_pyCountDict toks
  have hlen : (pyCountDict toks).length = (dedupF toks).length := by
    rw [← hkeys, List.length_map]
  have hnd : ((pyCountDict toks).map Prod.fst).Nodup := by
    rw [hkeys]; exact nodup_dedupF toks
  apply List.ext_getElem (by rw [hlen, List.length_map])
  intro i hi hi'
  have hlt : i < (dedupF toks).length := by
    rw [← hlen]; exact hi
  have hfst : (pyCountDict toks)[i].1 = (dedupF toks)[i] := by
    have := List.getElem_map (f := (Prod.fst : K × Nat → K))
      (l := pyCountDict toks) (h := by rw [List.length_map]; exact hi)
    rw [← this]
    simp only [hkeys]
  have hsnd : (pyCountDict toks)[i].2 = toks.count ((pyCountDict toks)[i].1) := by
    have hmem : (pyCountDict toks)[i] ∈ pyCountDict toks := List.getElem_mem _
    have := entry_snd_eq_lkCnt (pyCountDict toks) hnd _ hmem
    rw [this]
    unfold pyCountDict
    rw [lkCnt_foldl]
    simp [lkCnt]
  rw [List.getElem_map, ← hfst, ← hsnd]

theorem insertD_perm (x : K × Nat) :
    ∀ (l : List (K × Nat)), List.Perm (insertD x l) (x :: l) := by
  intro l
  induction l with
  | nil => simp [insertD]
  | cons y ys ih =>
    rw [insertD]
    by_cases h : y.2 > x.2
    · rw [if_pos h]
      exact (ih.cons y).trans (List.Perm.swap x y ys)
    · rw [if_neg h]

theorem sortD_perm : ∀ (l : List (K × Nat)), List.Perm (sortD l) l := by
  intro l
  induction l with
  | nil => simp [sortD]
  | cons x xs ih =>
    rw [sortD]
    exact (insertD_perm x (sortD xs)).trans (ih.cons x)

theorem insertD_pairwise {R : K × Nat → K × Nat → Prop} (x : K × Nat) :
    ∀ (L : List (K × Nat)), L.Pairwise (tieRel R) → (∀ y ∈ L, R x y) →
      (insertD x L).Pairwise (tieRel R) := by
  intro L
  induction L with
  | nil => intro _ _; simp [insertD, List.pairwise_cons]
  | cons y ys ih =>
    intro hL hx
    rcases List.pairwise_cons.mp hL with ⟨hy, hys⟩
    rw [insertD]
    by_cases h : y.2 > x.2
    · rw [if_pos h]
      refine List.pairwise_cons.mpr ⟨?_, ?_⟩
      · intro z hz
        rcases List.mem_cons.mp ((insertD_perm x ys).mem_iff.mp hz) with rfl | hz'
        · exact .inl h
        · exact hy z hz'
      · exact ih hys (fun z hz => hx z (List.mem_cons_of_mem _ hz))
    · rw [if_neg h]
      refine List.pairwise_cons.mpr ⟨?_, hL⟩
      intro z hz
      rcases List.mem_cons.mp hz with rfl | hz'
      · by_cases he : z.2 = x.2
        · exact .inr ⟨he.symm, hx z (List.mem_cons_self _ _)⟩
        · exact .inl (by omega)
      · have hyz := hy z hz'
        have hzy : z.2 ≤ y.2 := by
          rcases hyz with h1 | ⟨h1, _⟩
          · omega
          · omega
        by_cases he : z.2 = x.2
        · exact .inr ⟨he.symm, hx z (List.mem_cons_of_mem _ hz')⟩
        · exact .inl (by omega)

theorem sortD_pairwise {R : K × Nat → K × Nat → Prop} :
    ∀ (l : List (K × Nat)), l.Pairwise R → (sortD l).Pairwise (tieRel R) := by
  intro l
  induction l with
  | nil => intro _; simp [sortD]
  | cons x xs ih =>
    intro hl
    rcases List.pairwise_cons.mp hl with ⟨hx, hxs⟩
    rw [sortD]
    exact insertD_pairwise x (sortD xs) (ih hxs)
      (fun y hy => hx y ((sortD_perm xs).mem_iff.mp hy))

theorem countOcc_eq_count (a : K) :
    ∀ (l : List K), countOcc a l = l.count a := by
  intro l
  induction l with
  | nil => simp [countOcc]
  | cons b t ih =>
    rw [countOcc, ih, List.count_cons]
    by_cases h : b = a <;> simp [h]

theorem countOcc_filter_of_pred (p : K → Bool) (a : K) (ha : p a = true) :
    ∀ (l : List K), countOcc a (l.filter p) = countOcc a l := by
  intro l
  induction l with
  | nil => simp
  | cons b t ih =>
    by_cases hpb : p b
    · rw [List.filter_cons_of_pos hpb, countOcc, countOcc, ih]
    · rw [List.filter_cons_of_neg hpb, countOcc, ih]
      have hne : ¬ b = a := by
        intro he
        rw [he] at hpb
        exact hpb ha
      simp [hne]

end CountSort

/-- Characters of any `str.split()` token come from the split string. -/
theorem pySplitWSAux_chars :
    ∀ (fuel : Nat) (s : PyStr) (w : PyStr) (c : Char),
      w ∈ pySplitWSAux fuel s → c ∈ w → c ∈ s := by
  intro fuel
  induction fuel with
  | zero => intro s w c hw; simp [pySplitWSAux] at hw
  | succ n ih =>
    intro s w c hw hc
    rw [pySplitWSAux] at hw
    cases hdr : s.dropWhile isPySpace with
    | nil => rw [hdr] at hw; simp at hw
    | cons d ds =>
      rw [hdr] at hw
      have hsub1 : (d :: ds) ⊆ s := by
        rw [← hdr]
        exact (List.dropWhile_sublist _).subset
      rcases List.mem_cons.mp hw with rfl | hw'
      · exact hsub1 ((List.takeWhile_sublist _).subset hc)
      · have := ih _ w c hw' hc
        exact hsub1 ((List.dropWhile_sublist _).subset this)

theorem lowerChar_fix (c : Char) : lowerChar (lowerChar c) = lowerChar c := by
  unfold lowerChar
  cases hfind : caseTable.find? (fun p => p.1 = c) with
  | none => simp [hfind]
  | some p =>
    have hp : p ∈ caseTable := List.mem_of_find?_eq_some hfind
    have hall : ∀ q ∈ caseTable, caseTable.find? (fun r => r.1 = q.2) = none := by
      decide
    simp [hall p hp]

/-- Every character of the lower-cased text is `lowerChar`-fixed. -/
theorem mem_map_lowerChar_fix (l : PyStr) (c : Char)
    (hc : c ∈ l.map lowerChar) : lowerChar c = c := by
  rcases List.mem_map.mp hc with ⟨c0, _, rfl⟩
  exact lowerChar_fix c0

/-- Facts about every member of the keyword token list. -/
theorem keywordTokens_facts (text : PyStr) (w : PyStr)
    (hw : w ∈ keywordTokens text) :
    3 < w.length ∧ stopWords.contains w = false ∧ pyIsAlpha w = true ∧
      w.map lowerChar = w := by
  rcases List.mem_filter.mp hw with ⟨hmem, hkeep⟩
  unfold keepKeyword at hkeep
  simp only [Bool.and_eq_true, decide_eq_true_eq, Bool.not_eq_true'] at hkeep
  refine ⟨hkeep.1.1, hkeep.1.2, hkeep.2, ?_⟩
  have hchars : ∀ c ∈ w, lowerChar c = c := by
    intro c hc
    have hcs : c ∈ (text.map lowerChar).filter (fun c => !pythonPunct.contains c) := by
      unfold allTokens at hmem
      exact pySplitWSAux_chars _ _ w c hmem hc
    have : c ∈ text.map lowerChar := List.mem_of_mem_filter hcs
    exact mem_map_lowerChar_fix text c this
  calc w.map lowerChar = w.map id := List.map_congr_left hchars
  _ = w := List.map_id w

/-- Membership chain: results of `extract_keywords` are keyword tokens. -/
theorem mem_extractKeywords_mem_tokens (text : PyStr) (k : Nat) (w : PyStr)
    (hw : w ∈ extractKeywords text k) : w ∈ keywordTokens text := by
  unfold extractKeywords at hw
  rcases List.mem_map.mp hw with ⟨p, hp, rfl⟩
  have hp1 : p ∈ sortD (pyCountDict (keywordTokens text)) :=
    List.mem_of_mem_take hp
  have hp2 : p ∈ pyCountDict (keywordTokens text) :=
    (sortD_perm _).mem_iff.mp hp1
  have : p.1 ∈ (pyCountDict (keywordTokens text)).map Prod.fst :=
    List.mem_map.mpr ⟨p, hp2, rfl⟩
  rw [keys_pyCountDict] at this
  exact (mem_dedupF _ _).mp this

theorem mem_pyCountDict_char {K : Type} [DecidableEq K] (toks : List K)
    (p : K × Nat) (hp : p ∈ pyCountDict toks) :
    p.2 = countOcc p.1 toks ∧ p.1 ∈ toks := by
  rw [pyCountDict_eq] at hp
  rcases List.mem_map.mp hp with ⟨w, hw, rfl⟩
  exact ⟨countOcc_eq_count _ _ |>.symm, (mem_dedupF _ _).mp hw⟩

/-- The truncated stable sort of a frequency dict is ordered by strictly
descending count with ties in first-occurrence order. -/
theorem sorted_pairs_pairwise {K : Type} [DecidableEq K] (toks : List K)
    (k : Nat) :
    ((sortD (pyCountDict toks)).take k).Pairwise (fun p q =>
      countOcc q.1 toks < countOcc p.1 toks ∨
      (countOcc p.1 toks = countOcc q.1 toks ∧
        idxOf p.1 toks < idxOf q.1 toks)) := by
  have h0 : (pyCountDict toks).Pairwise
      (fun p q => idxOf p.1 toks < idxOf q.1 toks) := by
    have hk := dedupF_pairwise_idxOf toks
    rw [← keys_pyCountDict, List.pairwise_map] at hk
    exact hk
  have h1 := sortD_pairwise _ h0
  have h2 := List.Pairwise.sublist (List.take_sublist k _) h1
  refine h2.imp_of_mem ?_
  intro p q hp hq hrel
  have hpm : p ∈ pyCountDict toks :=
    (sortD_perm _).mem_iff.mp (List.mem_of_mem_take hp)
  have hqm : q ∈ pyCountDict toks :=
    (sortD_perm _).mem_iff.mp (List.mem_of_mem_take hq)
  obtain ⟨hp2, _⟩ := mem_pyCountDict_char toks p hpm
  obtain ⟨hq2, _⟩ := mem_pyCountDict_char toks q hqm
  rcases hrel with h | ⟨he, hi⟩
  · exact .inl (by rw [← hp2, ← hq2]; exact h)
  · exact .inr ⟨by rw [← hp2, ← hq2]; exact he, hi⟩

theorem filterLengthMapAux {α β : Type} (f : α → β) (p : β → Bool) :
    ∀ (l : List α),
      ((l.map f).filter p).length = (l.filter (fun a => p (f a))).length := by
  intro l
  induction l with
  | nil => simp
  | cons a t ih =>
    by_cases hp : p (f a) <;> simp [List.filter_cons, hp, ih]

/-! ## Claim theorems -/

/-- C7: for every text and every k, `extract_keywords(text, k)` returns at
most k tokens, each a lowercase alphabetic token of length > 3 that is not
in the stop-word set, ordered by strictly descending frequency among the
tokens of the punctuation-stripped lower-cased text, with frequency ties
broken by first-occurrence order. -/
theorem extract_keywords_spec (text : PyStr) (k : Nat) :
    (extractKeywords text k).length ≤ k ∧
    (∀ w ∈ extractKeywords text k,
      3 < w.length ∧ stopWords.contains w = false ∧ pyIsAlpha w = true ∧
        w.map lowerChar = w) ∧
    (extractKeywords text k).Pairwise (fun a b =>
      countOcc b (allTokens text) < countOcc a (allTokens text) ∨
      (countOcc a (allTokens text) = countOcc b (allTokens text) ∧
        idxOf a (allTokens text) < idxOf b (allTokens text))) := by
  refine ⟨?_, ?_, ?_⟩
  · unfold extractKeywords
    rw [List.length_map]
    exact List.length_take_le _ _
  · intro w hw
    exact keywordTokens_facts text w (mem_extractKeywords_mem_tokens text k w hw)
  · unfold extractKeywords
    rw [List.pairwise_map]
    have hbase := sorted_pairs_pairwise (keywordTokens text) k
    refine hbase.imp_of_mem ?_
    intro p q hp hq hrel
    have hpm : p ∈ pyCountDict (keywordTokens text) :=
      (sortD_perm _).mem_iff.mp (List.mem_of_mem_take hp)
    have hqm : q ∈ pyCountDict (keywordTokens text) :=
      (sortD_perm _).mem_iff.mp (List.mem_of_mem_take hq)
    obtain ⟨_, hpt⟩ := mem_pyCountDict_char _ p hpm
    obtain ⟨_, hqt⟩ := mem_pyCountDict_char _ q hqm
    have hpk : keepKeyword p.1 = true := (List.mem_filter.mp hpt).2
    have hqk : keepKeyword q.1 = true := (List.mem_filter.mp hqt).2
    have hcp : countOcc p.1 (keywordTokens text) = countOcc p.1 (allTokens text) :=
      countOcc_filter_of_pred keepKeyword p.1 hpk (allTokens text)
    have hcq : countOcc q.1 (keywordTokens text) = countOcc q.1 (allTokens text) :=
      countOcc_filter_of_pred keepKeyword q.1 hqk (allTokens text)
    rcases hrel with h | ⟨he, hi⟩
    · exact .inl (by rw [← hcp, ← hcq]; exact h)
    · refine .inr ⟨by rw [← hcp, ← hcq]; exact he, ?_⟩
      exact idxOf_filter_mono keepKeyword (allTokens text) p.1 q.1 hpt hqt hi

set_option maxRecDepth 8000 in
/-- C7 witness: the theorem instantiated at a concrete text, discharging
the membership hypothesis on the keyword "alpha". -/
theorem extract_keywords_spec_witness :
    (extractKeywords (s2l "alpha beta alpha") 2).length ≤ 2 ∧
    (3 < (s2l "alpha").length ∧ stopWords.contains (s2l "alpha") = false ∧
      pyIsAlpha (s2l "alpha") = true ∧ (s2l "alpha").map lowerChar = s2l "alpha") :=
  ⟨(extract_keywords_spec (s2l "alpha beta alpha") 2).1,
   (extract_keywords_spec (s2l "alpha beta alpha") 2).2.1 (s2l "alpha") (by decide)⟩

/-- C10: the tokens returned by `extract_keywords` are pairwise distinct,
because the ranking is over the keys of a frequency map. -/
theorem extract_keywords_nodup (text : PyStr) (k : Nat) :
    (extractKeywords text k).Nodup := by
  unfold extractKeywords
  have hnd : ((pyCountDict (keywordTokens text)).map Prod.fst).Nodup := by
    rw [keys_pyCountDict]
    exact nodup_dedupF _
  have hs : ((sortD (pyCountDict (keywordTokens text))).map Prod.fst).Nodup :=
    (((sortD_perm _).map Prod.fst).nodup_iff).mpr hnd
  rw [List.map_take]
  exact List.Nodup.sublist (List.take_sublist _ _) hs

/-- C8: for every text and every k, `extract_topics(text, k)` returns at
most k phrases, every returned phrase has tallied frequency strictly
greater than 1 among the topic candidates, the phrases are ordered by
strictly descending frequency with ties in first-occurrence order, and the
result can never be longer than the number of distinct candidate phrases of
frequency > 1 (never padded). -/
theorem extract_topics_spec (text : PyStr) (k : Nat) :
    (extractTopics text k).length ≤ k ∧
    (∀ t ∈ extractTopics text k, 1 < countOcc t (topicCandidates text)) ∧
    (extractTopics text k).Pairwise (fun a b =>
      countOcc b (topicCandidates text) < countOcc a (topicCandidates text) ∨
      (countOcc a (topicCandidates text) = countOcc b (topicCandidates text) ∧
        idxOf a (topicCandidates text) < idxOf b (topicCandidates text))) ∧
    (extractTopics text k).length ≤
      ((dedupF (topicCandidates text)).filter
        (fun t => 1 < countOcc t (topicCandidates text))).length := by
  refine ⟨?_, ?_, ?_, ?_⟩
  · unfold extractTopics
    rw [List.length_map]
    exact le_trans (List.length_filter_le _ _) (List.length_take_le _ _)
  · intro t ht
    unfold extractTopics at ht
    rcases List.mem_map.mp ht with ⟨p, hp, rfl⟩
    rcases List.mem_filter.mp hp with ⟨hptake, hpgt⟩
    have hpm : p ∈ pyCountDict (topicCandidates text) :=
      (sortD_perm _).mem_iff.mp (List.mem_of_mem_take hptake)
    obtain ⟨hp2, _⟩ := mem_pyCountDict_char _ p hpm
    have h1 : 1 < p.2 := by simpa using hpgt
    rw [hp2] at h1
    exact h1
  · unfold extractTopics
    rw [List.pairwise_map]
    have hbase := sorted_pairs_pairwise (topicCandidates text) k
    exact List.Pairwise.sublist (List.filter_sublist _) hbase
  · unfold extractTopics
    rw [List.length_map]
    have h1 : (((sortD (pyCountDict (topicCandidates text))).take k).filter
          (fun p => p.2 > 1)).length
        ≤ ((sortD (pyCountDict (topicCandidates text))).filter
          (fun p => p.2 > 1)).length :=
      List.Sublist.length_le (List.Sublist.filter _ (List.take_sublist k _))
    have h2 : ((sortD (pyCountDict (topicCandidates text))).filter
          (fun p => p.2 > 1)).length
        = ((pyCountDict (topicCandidates text)).filter
          (fun p => p.2 > 1)).length :=
      ((sortD_perm _).filter _).length_eq
    have h3 : ((pyCountDict (topicCandidates text)).filter
          (fun p => p.2 > 1)).length
        = ((dedupF (topicCandidates text)).filter
          (fun t => 1 < countOcc t (topicCandidates text))).length := by
      rw [pyCountDict_eq, filterLengthMapAux]
      congr 1
      apply List.filter_congr
      intro w _
      simp [countOcc_eq_count]
    omega

set_option maxRecDepth 40000 in
/-- C8 witness: the theorem instantiated at a concrete text whose topic
list is nonempty, discharging the membership hypothesis on the phrase
"neural networks". -/
theorem extract_topics_spec_witness :
    (extractTopics (s2l "Neural networks are powerful tools. Neural networks process data. Deep learning uses neural networks daily.") 5).length ≤ 5 ∧
    1 < (topicCandidates (s2l "Neural networks are powerful tools. Neural networks process data. Deep learning uses neural networks daily.")).count
      (s2l "neural networks") :=
  ⟨(extract_topics_spec _ 5).1,
   (extract_topics_spec (s2l "Neural networks are powerful tools. Neural networks process data. Deep learning uses neural networks daily.") 5).2.1
     (s2l "neural networks") (by decide)⟩

/-- C3 (amended): for every raw input, the output of the Transcript
Normalizer `clean_transcript` contains no leading or trailing whitespace.
(The other clauses of the original claim fail; see the counterexample.) -/
theorem clean_transcript_stripped (s : PyStr) :
    strippedB (cleanTranscript s) = true := by
  unfold cleanTranscript
  split
  · rfl
  · exact strippedB_pyStrip _

set_option maxRecDepth 20000 in
/-- C3 counterexample: on this input the cleaned output is
`"Speaker 2: [1:23:45] () you know"`, which still contains a line-leading
speaker label, a `[H:MM:SS]` timestamp (reassembled by the non-rescanning
substitution), two adjacent punctuation marks `()`, and the filler phrase
"you know" — refuting the markup, doubled-punctuation and filler clauses of
the claim. -/
theorem clean_transcript_invariant_violations :
    cleanTranscript (s2l "Speaker 1:Speaker 2: [1:[2:34:56]23:45] (like) you kind of know") =
      s2l "Speaker 2: [1:23:45] () you know" ∧
    hasAdjPunct (cleanTranscript (s2l "Speaker 1:Speaker 2: [1:[2:34:56]23:45] (like) you kind of know")) = true ∧
    containsTimestamp (cleanTranscript (s2l "Speaker 1:Speaker 2: [1:[2:34:56]23:45] (like) you kind of know")) = true ∧
    (speakerMatcher (cleanTranscript (s2l "Speaker 1:Speaker 2: [1:[2:34:56]23:45] (like) you kind of know"))).isSome = true ∧
    isSubstrOf (s2l "you know") (cleanTranscript (s2l "Speaker 1:Speaker 2: [1:[2:34:56]23:45] (like) you kind of know")) = true := by
  refine ⟨by decide, by decide, by decide, by decide, by decide⟩

set_option maxRecDepth 20000 in
/-- C4: the Transcript Normalizer is not idempotent.  Removing "kind of"
from "you kind of know" leaves the filler phrase "you know", which a second
pass then deletes entirely: `normalize("you kind of know") = "You know"`
but `normalize("You know") = ""`. -/
theorem clean_transcript_not_idempotent :
    cleanTranscript (s2l "you kind of know") = s2l "You know" ∧
    cleanTranscript (cleanTranscript (s2l "you kind of know")) = s2l "" ∧
    cleanTranscript (cleanTranscript (s2l "you kind of know")) ≠
      cleanTranscript (s2l "you kind of know") := by
  refine ⟨by decide, by decide, by decide⟩

set_option maxRecDepth 40000 in
/-- C5: on the specification example the code does not produce
`"Machine learning is powerful."`: the timestamp removal leaves a leading
space, so the `^`-anchored speaker-label pattern no longer matches, and the
filler removal leaves the commas that surrounded the fillers.  The actual
output is `"Speaker 1: , , , machine learning is, , powerful"`. -/
theorem clean_transcript_example_divergence :
    cleanTranscript (s2l "[00:01:15] Speaker 1: Um, so, like, machine learning is, you know, powerful.") =
      s2l "Speaker 1: , , , machine learning is, , powerful" ∧
    cleanTranscript (s2l "[00:01:15] Speaker 1: Um, so, like, machine learning is, you know, powerful.") ≠
      s2l "Machine learning is powerful." := by
  refine ⟨by decide, by decide⟩

/-- C2 (amended): on the empty string `create_text_summary_stats` returns
the empty record `{}` (modelled as `none`) — it has no numeric fields at
all — and no division is attempted. -/
theorem compute_stats_empty_returns_empty_record :
    createTextSummaryStats (s2l "") = none := by rfl

/-- C2 counterexample: the result on the empty string is not a record with
all-zero numeric fields; it is the empty record. -/
theorem compute_stats_empty_not_zero_record :
    createTextSummaryStats (s2l "") ≠ some statsZero := by decide

set_option maxRecDepth 20000 in
/-- C6 (amended): on `"One two three. Four five."` the code yields
`word_count = 5`, but `sentence_count = 1` (the fragment `"Four five."`
has exactly 10 characters and the splitter discards fragments of length
`≤ 10`), hence `avg_words_per_sentence = 5.0`. -/
theorem compute_stats_example_corrected :
    (createTextSummaryStats (s2l "One two three. Four five.")).map
        (fun r => (r.word_count, r.sentence_count, r.avg_words_per_sentence)) =
      some (5, 1, (5 : ℚ)) := by with_unfolding_all rfl

set_option maxRecDepth 20000 in
/-- C6 counterexample: the claimed values `sentence_count = 2` and
`avg_words_per_sentence = 2.5` do not hold on the code. -/
theorem compute_stats_example_claim_false :
    (createTextSummaryStats (s2l "One two three. Four five.")).map
        (fun r => (r.word_count, r.sentence_count, r.avg_words_per_sentence)) ≠
      some (5, 2, (5 : ℚ) / 2) := by with_unfolding_all decide

theorem jsonLoads_error_eq (s : PyStr) (e : PyErr)
    (h : jsonLoads s = .error e) : e = .jsonDecode := by
  unfold jsonLoads at h
  split at h
  · split at h
    · exact absurd h (by simp)
    · injection h with h
      exact h.symm
  · injection h with h
    exact h.symm

theorem quizTryJson_error_eq (s : PyStr) (e : PyErr)
    (h : quizTryJson s = .error e) : e = .jsonDecode := by
  unfold quizTryJson at h
  rcases hb : bracketSlice s with _ | sub
  · rw [hb] at h
    exact jsonLoads_error_eq _ _ h
  · rw [hb] at h
    exact jsonLoads_error_eq _ _ h

theorem flashTryJson_eq_quizTryJson (s : PyStr) :
    flashTryJson s = quizTryJson s := rfl

/-- C1 (amended): the two structured-response parsers never raise: the only
exception the strict stage can produce is the JSON decode error, and it is
caught and replaced by the heuristic fallback, which always returns a
(possibly empty) sequence.  When the strict stage succeeds the returned
value is the parsed JSON document, which need not be a sequence of records
(see the counterexample). -/
theorem parse_records_never_raises (s : PyStr) :
    (∃ v, parseQuizJson s = .ok v) ∧ (∃ v, parseFlashcardJson s = .ok v) ∧
    (∀ e, quizTryJson s = .error e →
      parseQuizJson s = .ok (.arr (quizFallback s))) ∧
    (∀ e, flashTryJson s = .error e →
      parseFlashcardJson s = .ok (.arr (flashFallback s))) := by
  refine ⟨?_, ?_, ?_, ?_⟩
  · unfold parseQuizJson
    rcases hq : quizTryJson s with e | v
    · have := quizTryJson_error_eq s e hq
      subst this
      exact ⟨_, rfl⟩
    · exact ⟨v, rfl⟩
  · unfold parseFlashcardJson
    rcases hq : flashTryJson s with e | v
    · have := quizTryJson_error_eq s e ((flashTryJson_eq_quizTryJson s) ▸ hq)
      subst this
      exact ⟨_, rfl⟩
    · exact ⟨v, rfl⟩
  · intro e he
    have := quizTryJson_error_eq s e he
    subst this
    unfold parseQuizJson
    rw [he]
  · intro e he
    have := quizTryJson_error_eq s e ((flashTryJson_eq_quizTryJson s) ▸ he)
    subst this
    unfold parseFlashcardJson
    rw [he]

/-- C1 witness: at the unparsable input "junk" the strict stage raises the
decode error and the caught fallback produces the (here empty) sequence. -/
theorem parse_records_never_raises_witness :
    parseQuizJson (s2l "junk") = .ok (.arr (quizFallback (s2l "junk"))) :=
  (parse_records_never_raises (s2l "junk")).2.2.1 .jsonDecode (by rfl)

/-- C1 counterexample: on input "3" (a valid non-array JSON document) the
parser returns the number 3, which is not a sequence of records. -/
theorem parse_records_nonsequence_example :
    parseQuizJson (s2l "3") = .ok (Json.num 3) ∧
    jsonIsArr (Json.num 3) = false := by
  exact ⟨by with_unfolding_all rfl, rfl⟩

/-- C9 (amended): the structured stages of `_parse_quiz_json` and
`_parse_flashcard_json` are identical, and whenever strict parsing
succeeds both parsers return the same value.  (Their heuristic fallbacks
differ beyond field names and caps — see the counterexample.) -/
theorem parsers_agree_on_structured_stage (s : PyStr) :
    quizTryJson s = flashTryJson s ∧
    (∀ v, quizTryJson s = .ok v →
      parseQuizJson s = .ok v ∧ parseFlashcardJson s = .ok v) := by
  refine ⟨rfl, ?_⟩
  intro v h
  constructor
  · unfold parseQuizJson
    rw [h]
  · unfold parseFlashcardJson
    rw [flashTryJson_eq_quizTryJson, h]

/-- C9 witness: on the structured input "[1]" both parsers return the
parsed array. -/
theorem parsers_agree_witness :
    parseQuizJson (s2l "[1]") = .ok (Json.arr [Json.num 1]) ∧
    parseFlashcardJson (s2l "[1]") = .ok (Json.arr [Json.num 1]) :=
  (parsers_agree_on_structured_stage (s2l "[1]")).2 (Json.arr [Json.num 1])
    (by with_unfolding_all rfl)

/-- C9 counterexample: on the same fallback input the quiz parser emits one
record per question-like line (2 records) while the flashcard parser pairs
consecutive lines (1 record), so the two parsers do not implement the same
routine up to field names and caps. -/
theorem parsers_fallbacks_differ :
    resultArrLen (parseQuizJson (s2l "What is X?\nX is Y.")) = some 2 ∧
    resultArrLen (parseFlashcardJson (s2l "What is X?\nX is Y.")) = some 1 ∧
    resultArrLen (parseQuizJson (s2l "What is X?\nX is Y.")) ≠
      resultArrLen (parseFlashcardJson (s2l "What is X?\nX is Y.")) := by
  refine ⟨rfl, rfl, by decide⟩

end LectureNotes
